import Mathlib

set_option maxHeartbeats 1000000

/-
Verification development for the `replicate-to-s3` pipeline
(src/replicate-to-s3/src/main.rs).  Rust functions are shallowly embedded
as executable Lean definitions; machine integers are modelled as `Nat`
with explicit `% 2 ^ 64` where overflow matters; panics are modelled as
`Option`/`Except` failures.
-/

/-! ## Chunk codec: length-prefixed framing and the resumption tail scan -/

/-- Big-endian 8-byte encoding of a record length, modelling
`event_buf.len().to_be_bytes()` (main.rs, `event_to_cbor` /
`binary_copy_out_row_to_cbor_buf`).  Bytes are `Nat`s below 256. -/
def toBE8 (n : Nat) : List Nat :=
  [n / 2 ^ 56 % 256, n / 2 ^ 48 % 256, n / 2 ^ 40 % 256, n / 2 ^ 32 % 256,
   n / 2 ^ 24 % 256, n / 2 ^ 16 % 256, n / 2 ^ 8 % 256, n % 256]

/-- Value of 8 big-endian bytes, modelling `usize::from_be_bytes(size)` in
`get_relatime_resumption_data` (main.rs:537-538). -/
def fromBE8 (bs : List Nat) : Nat :=
  bs.foldl (fun a b => a * 256 + b) 0

/-- One framed record: `u64_be length ‖ payload`, exactly as written by
`event_to_cbor` (main.rs:850-851) and `binary_copy_out_row_to_cbor_buf`
(main.rs:751-752). -/
def frame (payload : List Nat) : List Nat :=
  toBE8 payload.length ++ payload

/-- A chunk body: the concatenation of framed records. -/
def concatFrames (ps : List (List Nat)) : List Nat :=
  (ps.map frame).flatten

/-- The record scan loop of `get_relatime_resumption_data` (main.rs:534-545),
written on the suffix `w = v[start..]` of the original buffer (the source
loop keeps an absolute index `start` into `v`; dropping the consumed
prefix is the same computation).  Stepping rules, matching the source
line by line:
  * reading `v[start..start + 8]` panics when fewer than 8 bytes remain
    (`none` models the panic);
  * `size` is the big-endian value of those 8 bytes;
  * if `v.len() <= start + 8 + size` (here `w.length ≤ 8 + size`) the
    loop breaks with `v = &v[start + 8..]` (here `w.drop 8`);
  * otherwise the loop advances to `start + 8 + size`.
The first argument is fuel; each iteration consumes at least 9 bytes of
the suffix, so `w.length` is always enough fuel (`scanGo_fuel`). -/
def scanGo : Nat → List Nat → Option (List Nat)
  | 0, _ => none
  | fuel + 1, w =>
    if w.length < 8 then none
    else
      let size := fromBE8 (w.take 8)
      if w.length ≤ 8 + size then some (w.drop 8)
      else scanGo fuel (w.drop (8 + size))

/-- The tail scan of `get_relatime_resumption_data` applied to a whole
chunk body: it returns the byte slice that the source then hands to
`serde_cbor::from_reader`, or `none` when the source loop panics. -/
def parse_scan (v : List Nat) : Option (List Nat) :=
  scanGo v.length v

theorem toBE8_length (n : Nat) : (toBE8 n).length = 8 := rfl

theorem fromBE8_toBE8 {n : Nat} (h : n < 2 ^ 64) : fromBE8 (toBE8 n) = n := by
  simp only [fromBE8, toBE8, List.foldl]
  norm_num at h ⊢
  omega

/-- Fuel irrelevance: any fuel at least the length of the suffix gives the
same scan result. -/
theorem scanGo_fuel : ∀ (f₁ f₂ : Nat) (w : List Nat),
    w.length ≤ f₁ → w.length ≤ f₂ → scanGo f₁ w = scanGo f₂ w := by
  intro f₁
  induction f₁ with
  | zero =>
    intro f₂ w h₁ _
    have hw : w = [] := List.eq_nil_of_length_eq_zero (Nat.le_zero.mp h₁)
    subst hw
    cases f₂ with
    | zero => rfl
    | succ f => simp [scanGo]
  | succ f ih =>
    intro f₂ w h₁ h₂
    cases f₂ with
    | zero =>
      have hw : w = [] := List.eq_nil_of_length_eq_zero (Nat.le_zero.mp h₂)
      subst hw
      simp [scanGo]
    | succ g =>
      simp only [scanGo]
      by_cases hlen : w.length < 8
      · simp [hlen]
      · simp only [hlen, if_false]
        by_cases hbrk : w.length ≤ 8 + fromBE8 (w.take 8)
        · simp [hbrk]
        · simp only [hbrk, if_false]
          apply ih
          · have := List.length_drop (8 + fromBE8 (w.take 8)) w
            omega
          · have := List.length_drop (8 + fromBE8 (w.take 8)) w
            omega

/-- One-step unfolding of the tail scan on a non-empty buffer. -/
theorem parse_scan_eq (w : List Nat) (hw : w ≠ []) :
    parse_scan w =
      if w.length < 8 then none
      else if w.length ≤ 8 + fromBE8 (w.take 8) then some (w.drop 8)
      else parse_scan (w.drop (8 + fromBE8 (w.take 8))) := by
  obtain ⟨k, hk⟩ : ∃ k, w.length = k + 1 := by
    cases hl : w.length with
    | zero => exact absurd (List.eq_nil_of_length_eq_zero hl) hw
    | succ k => exact ⟨k, rfl⟩
  unfold parse_scan
  rw [hk]
  simp only [scanGo]
  rw [hk]
  by_cases hlen : k + 1 < 8
  · simp [hlen]
  · simp only [hlen, if_false]
    by_cases hbrk : k + 1 ≤ 8 + fromBE8 (w.take 8)
    · simp [hbrk]
    · simp only [hbrk, if_false]
      apply scanGo_fuel
      · have := List.length_drop (8 + fromBE8 (w.take 8)) w
        omega
      · exact Nat.le_refl _

theorem frame_length (p : List Nat) : (frame p).length = 8 + p.length := by
  simp [frame, toBE8_length]

theorem frame_take (p : List Nat) : (frame p).take 8 = toBE8 p.length := by
  have h : (toBE8 p.length).length = 8 := toBE8_length p.length
  rw [frame]
  conv_lhs => rw [← h]
  exact List.take_left _ _

theorem frame_drop (p : List Nat) : (frame p).drop 8 = p := by
  have h : (toBE8 p.length).length = 8 := toBE8_length p.length
  rw [frame]
  conv_lhs => rw [← h]
  exact List.drop_left _ _

/-- Scanning a single complete frame returns its payload. -/
theorem parse_scan_single {p : List Nat} (hp : p.length < 2 ^ 64) :
    parse_scan (frame p) = some p := by
  rw [parse_scan_eq _ (by simp [frame, toBE8])]
  rw [frame_length, frame_take, fromBE8_toBE8 hp, frame_drop]
  by_cases h8 : 8 + p.length < 8
  · omega
  · simp [h8]

/-- The scan walks over any leading complete frames: with a non-empty
remainder it behaves exactly as the scan of the remainder alone. -/
theorem parse_scan_append (ps : List (List Nat)) (t : List Nat)
    (hb : ∀ p ∈ ps, p.length < 2 ^ 64) (ht : t ≠ []) :
    parse_scan (concatFrames ps ++ t) = parse_scan t := by
  induction ps with
  | nil => simp [concatFrames]
  | cons p ps ih =>
    have hp : p.length < 2 ^ 64 := hb p (List.mem_cons_self p ps)
    have hrest : ∀ q ∈ ps, q.length < 2 ^ 64 := fun q hq => hb q (List.mem_cons_of_mem p hq)
    have hassoc : concatFrames (p :: ps) ++ t = frame p ++ (concatFrames ps ++ t) := by
      simp [concatFrames, List.append_assoc]
    rw [hassoc]
    have htne : concatFrames ps ++ t ≠ [] := by
      intro hcon
      exact ht (List.append_eq_nil.mp hcon).2
    have htpos : 0 < (concatFrames ps ++ t).length :=
      List.length_pos.mpr htne
    have hne : frame p ++ (concatFrames ps ++ t) ≠ [] := by
      simp [frame, toBE8]
    rw [parse_scan_eq _ hne]
    have hlen : (frame p ++ (concatFrames ps ++ t)).length
        = 8 + p.length + (concatFrames ps ++ t).length := by
      rw [List.length_append, frame_length]
    have htake : (frame p ++ (concatFrames ps ++ t)).take 8 = toBE8 p.length := by
      rw [frame, List.append_assoc]
      have h8 : (toBE8 p.length).length = 8 := toBE8_length p.length
      conv_lhs => rw [← h8]
      exact List.take_left _ _
    rw [hlen, htake, fromBE8_toBE8 hp]
    have hnot8 : ¬ 8 + p.length + (concatFrames ps ++ t).length < 8 := by omega
    have hnotbrk : ¬ 8 + p.length + (concatFrames ps ++ t).length ≤ 8 + p.length := by omega
    simp only [hnot8, if_false, hnotbrk]
    have hdrop : (frame p ++ (concatFrames ps ++ t)).drop (8 + p.length)
        = concatFrames ps ++ t := by
      have hfl : (frame p).length = 8 + p.length := frame_length p
      conv_lhs => rw [← hfl]
      exact List.drop_left _ _
    rw [hdrop]
    exact ih hrest

/-! ## Data model -/

/-- Event kinds, modelling `pg_replicate::EventType` (the closed set of §3
of the spec; the crate itself is outside src/). -/
inductive EventType where
  | Schema | Begin | Commit | Insert | Update | Delete | Relation
deriving DecidableEq, Repr

/-- Self-describing event payload, modelling `serde_cbor::Value` as used by
main.rs.  All map keys written by the source are text, so maps are kept as
association lists in insertion order (the `BTreeMap` ordering only affects
the serialized byte order, which no claim inspects). -/
inductive Value where
  | Null : Value
  | Boolean : Bool → Value
  | Integer : Int → Value
  | Text : String → Value
  | Array : List Value → Value
  | Map : List (String × Value) → Value

/-- The `Event` struct of main.rs:63-70.  The wall-clock `timestamp` is a
`Nat` stand-in for `DateTime<Utc>`. -/
structure Event where
  event_type : EventType
  timestamp : Nat
  relation_id : Option Nat
  last_lsn : Nat
  data : Value

/-- Table identity, modelling `pg_replicate::Table` (spec §3). -/
structure Table where
  schema : String
  name : String

/-- Postgres column types handled by main.rs (`Type::INT4`, `VARCHAR`,
`TIMESTAMP`); every other OID is the fatal `other` case. -/
inductive PgType where
  | int4 | varchar | timestamp | other (oid : Nat)
deriving DecidableEq, Repr

/-- The OID of a type, modelling `typ.oid()` as used in
`table_schema_to_event_data`. -/
def PgType.oid : PgType → Nat
  | .int4 => 23
  | .varchar => 1043
  | .timestamp => 1114
  | .other o => o

/-- Column metadata, modelling `pg_replicate`'s `Attribute` (spec §3). -/
structure Attribute where
  name : String
  typ : PgType
  type_modifier : Int
  identity : Bool
  nullable : Bool

/-- Table schema, modelling `pg_replicate::TableSchema` (spec §3). -/
structure TableSchema where
  relation_id : Nat
  table : Table
  attributes : List Attribute

/-- Resumption state handed to the replication client, modelling
`pg_replicate::ResumptionData` as constructed in
`get_relatime_resumption_data` (main.rs:549-554). -/
structure ResumptionData where
  resume_lsn : Nat
  last_event_type : EventType
  last_file_name : Nat
  skipping_events : Bool

/-- Fatal outcomes of the pipeline: every `Err`/panic path of main.rs is
one of these. -/
inductive RunError where
  | sinkPut
  | relationIdNotFound (relId : Nat)
  | panicked
  | unsupportedLogical
  | unsupportedRepl
  | unsupportedType
  | decodeFailed
  | noRawResponse
deriving DecidableEq, Repr

/-! ## Tuple decoding (`get_data`, main.rs:470-507) -/

/-- Replication tuple cells, modelling
`postgres_protocol::message::backend::TupleData`.  The `Text` payload is
kept as a `String` (a cell whose bytes are not valid UTF-8 would panic in
`get_val_from_tuple_data`; no claim depends on that path). -/
inductive TupleData where
  | Null
  | UnchangedToast
  | Text (s : String)

/-- Rust `str::parse::<i32>`, modelled as `String.toInt?` plus the i32
range check. -/
def parse_i32 (s : String) : Option Int :=
  match s.toInt? with
  | some i => if -(2 ^ 31) ≤ i ∧ i < 2 ^ 31 then some i else none
  | none => none

/-- The cell decoder `get_val_from_tuple_data` (main.rs:480-507).  `none`
models a panic (`UnchangedToast`, a failed parse, an unsupported type).
`parseTs` abstracts `NaiveDateTime::parse_from_str` + nanosecond
conversion from the chrono library, which is external code. -/
def get_val_from_tuple_data (parseTs : String → Option Int) (typ : PgType)
    (val : TupleData) : Option Value :=
  match val with
  | .Null => some Value.Null
  | .UnchangedToast => none
  | .Text s =>
    match typ with
    | .int4 => (parse_i32 s).map Value.Integer
    | .varchar => some (Value.Text s)
    | .timestamp => (parseTs s).map Value.Integer
    | .other _ => none

/-- Inner loop of `get_data` (main.rs:473-476): for attribute `i` in schema
order, read `data[i]` — an unchecked index, so `none` (panic) when the
tuple is shorter than the attribute list. -/
def get_data_go (parseTs : String → Option Int) :
    List Attribute → List TupleData → Nat → Option (List (String × Value))
  | [], _, _ => some []
  | attr :: attrs, data, i =>
    match data.get? i with
    | none => none
    | some cell =>
      match get_val_from_tuple_data parseTs attr.typ cell with
      | none => none
      | some v =>
        (get_data_go parseTs attrs data (i + 1)).map (fun rest => (attr.name, v) :: rest)

/-- The tuple decoder `get_data` (main.rs:470-478): builds the
column-name → value map for an Insert/Update/Delete event; `none` models
a panic. -/
def get_data (parseTs : String → Option Int) (table_schema : TableSchema)
    (tupleData : List TupleData) : Option Value :=
  (get_data_go parseTs table_schema.attributes tupleData 0).map Value.Map

/-- Bounds lemma behind claim C10: reading past the end of the tuple
panics, whatever the cell values are. -/
theorem get_data_go_short (parseTs : String → Option Int)
    (attrs : List Attribute) (data : List TupleData) (i : Nat)
    (hne : attrs ≠ []) (hlt : data.length < i + attrs.length) :
    get_data_go parseTs attrs data i = none := by
  induction attrs generalizing i with
  | nil => exact absurd rfl hne
  | cons a rest ih =>
    have hlt' : data.length < i + rest.length + 1 := by
      have : (a :: rest).length = rest.length + 1 := List.length_cons a rest
      omega
    simp only [get_data_go]
    cases hcell : data.get? i with
    | none => rfl
    | some cell =>
      have hi : i < data.length := by
        by_contra hge
        rw [List.get?_eq_none.mpr (Nat.le_of_not_lt hge)] at hcell
        exact Option.noConfusion hcell
      cases hval : get_val_from_tuple_data parseTs a.typ cell with
      | none => simp [hval]
      | some v =>
        have hrest : rest ≠ [] := by
          intro hr
          subst hr
          simp at hlt'
          omega
        have hlen2 : data.length < (i + 1) + rest.length := by omega
        simp [hval, ih (i + 1) hrest hlen2]

/-! ## Snapshot done marker (`table_copy_done`, main.rs:598-624) -/

/-- The raw HTTP response attached to an S3 SDK error, as consulted via
`e.raw_response().status().is_client_error()`. -/
structure RawResponse where
  is_client_error : Bool
deriving DecidableEq, Repr

/-- Result of the `get_object` call for the done marker: either it
succeeded, or it failed with an optional raw response. -/
inductive S3GetOutcome where
  | success
  | failure (raw : Option RawResponse)
deriving DecidableEq, Repr

/-- The `table_copy_done` check (main.rs:598-624), as a function of the
outcome of the `get_object` call for `table_copies/<schema>.<name>/done`.
Source control flow: on `Err(e)`, if `e.raw_response()` is absent the
`?` propagates a fatal error; if the status is a client error the
function returns `Ok(false)`; otherwise the `false => ()` arm falls
through to the trailing `Ok(true)` — as does the success case. -/
def table_copy_done (res : S3GetOutcome) : Except RunError Bool :=
  match res with
  | .success => .ok true
  | .failure none => .error .noRawResponse
  | .failure (some raw) => if raw.is_client_error then .ok false else .ok true

/-! ## Replication messages (postgres_protocol, as consumed by main.rs) -/

/-- Fields of `BeginBody` read by `begin_body_to_event_data`. -/
structure BeginBody where
  final_lsn : Nat
  timestamp : Int
  xid : Nat

/-- Fields of `CommitBody` read by `commit_body_to_event_data`. -/
structure CommitBody where
  commit_lsn : Nat
  end_lsn : Nat
  timestamp : Int
  flags : Nat

/-- One column entry of a `RelationBody`, with the fields read by
`relation_body_to_event_data`. -/
structure RelColumn where
  name : String
  flags : Nat
  type_id : Int
  type_modifier : Int

/-- Fields of `RelationBody` read by main.rs (`namespace()` and `name()`
are taken as already valid strings; an invalid one would panic, a path no
claim exercises). -/
structure RelationBody where
  rel_id : Nat
  nspace : String
  name : String
  columns : List RelColumn

/-- The logical replication message variants matched in
`copy_realtime_changes` (main.rs:161-373).  Only the fields the source
reads are carried.  `Other` stands for the catch-all `msg` arm. -/
inductive LogicalMessage where
  | Begin (b : BeginBody)
  | Commit (c : CommitBody)
  | Origin
  | Relation (r : RelationBody)
  | TypeMsg
  | Insert (relId : Nat) (tuple : List TupleData)
  | Update (relId : Nat) (new_tuple : List TupleData)
  | Delete (relId : Nat) (key_tuple : Option (List TupleData)) (old_tuple : Option (List TupleData))
  | Truncate
  | Other

/-- The replication messages matched in `copy_realtime_changes`
(main.rs:158-384): `XLogData` carries `wal_end` and a logical message,
`PrimaryKeepAlive` carries `reply`; anything else is fatal. -/
inductive ReplMessage where
  | XLogData (wal_end : Nat) (msg : LogicalMessage)
  | PrimaryKeepAlive (wal_end : Nat) (reply : Nat)
  | Other

/-! ## Event-data builders (main.rs:391-468, 788-831) -/

/-- The `begin_body_to_event_data` map (main.rs:391-406). -/
def begin_body_to_event_data (b : BeginBody) : Value :=
  Value.Map [("final_lsn", Value.Integer b.final_lsn),
             ("timestamp", Value.Integer b.timestamp),
             ("xid", Value.Integer b.xid)]

/-- The `commit_body_to_event_data` map (main.rs:408-427). -/
def commit_body_to_event_data (c : CommitBody) : Value :=
  Value.Map [("commit_lsn", Value.Integer c.commit_lsn),
             ("end_lsn", Value.Integer c.end_lsn),
             ("timestamp", Value.Integer c.timestamp),
             ("flags", Value.Integer c.flags)]

/-- The `relation_body_to_event_data` map (main.rs:429-468). -/
def relation_body_to_event_data (r : RelationBody) : Value :=
  Value.Map [("schema", Value.Text r.nspace),
             ("table", Value.Text r.name),
             ("columns", Value.Array (r.columns.map (fun col =>
               Value.Map [("name", Value.Text col.name),
                          ("identity", Value.Boolean (col.flags == 1)),
                          ("type_id", Value.Integer col.type_id),
                          ("type_modifier", Value.Integer col.type_modifier)])))]

/-- The `table_schema_to_event_data` map (main.rs:788-831). -/
def table_schema_to_event_data (ts : TableSchema) : Value :=
  Value.Map [("schema", Value.Text ts.table.schema),
             ("table", Value.Text ts.table.name),
             ("columns", Value.Array (ts.attributes.map (fun attr =>
               Value.Map [("name", Value.Text attr.name),
                          ("identity", Value.Boolean attr.identity),
                          ("nullable", Value.Boolean attr.nullable),
                          ("type_id", Value.Integer attr.typ.oid),
                          ("type_modifier", Value.Integer attr.type_modifier)])))]

/-- Event construction inside `event_to_cbor` (main.rs:833-853): the
serialization into the chunk buffer is modelled by appending the `Event`
value itself; `now` stands for `Utc::now()`. -/
def event_to_cbor (event_type : EventType) (table_schema : Option TableSchema)
    (data : Value) (now : Nat) (last_lsn : Nat) : Event :=
  { event_type := event_type, timestamp := now,
    relation_id := table_schema.map (fun ts => ts.relation_id),
    last_lsn := last_lsn, data := data }

/-! ## Chunk buffering (`try_save_data_chunk`, main.rs:855-874) -/

/-- `ROWS_PER_DATA_CHUNK` (main.rs:72). -/
def ROWS_PER_DATA_CHUNK : Nat := 10

/-- The per-destination chunking state threaded through
`copy_realtime_changes` and `copy_table`: `row_count`,
`data_chunk_count` and `data_chunk_buf` (events in buffer order). -/
structure ChunkCtx where
  row_count : Nat
  data_chunk_count : Nat
  data_chunk_buf : List Event

/-- Appending one framed event to the chunk buffer (the
`data_chunk_buf.write_all` part of `event_to_cbor`). -/
def append_event (ev : Event) (ctx : ChunkCtx) : ChunkCtx :=
  { ctx with data_chunk_buf := ctx.data_chunk_buf ++ [ev] }

/-- `try_save_data_chunk` (main.rs:855-874).  `sink` is the list of chunk
objects written so far under the destination's path (number, events);
`putOk` is whether the S3 put succeeds (a failed put is the fatal
`save_data_chunk` error).  Returns the source's `bool`: whether a chunk
was flushed. -/
def try_save_data_chunk (putOk : Bool) (ctx : ChunkCtx)
    (sink : List (Nat × List Event)) :
    Except RunError (Bool × ChunkCtx × List (Nat × List Event)) :=
  let rc := ctx.row_count + 1
  if rc = ROWS_PER_DATA_CHUNK then
    if putOk then
      .ok (true,
           { row_count := 0, data_chunk_count := ctx.data_chunk_count + 1,
             data_chunk_buf := [] },
           sink ++ [(ctx.data_chunk_count + 1, ctx.data_chunk_buf)])
    else .error .sinkPut
  else .ok (false, { ctx with row_count := rc }, sink)

/-! ## The stream copier state machine (`copy_realtime_changes`, main.rs:136-389) -/

/-- A `standby_status_update` call as issued at main.rs:378-381, together
with the ghost field `ghost_max_persisted`: the largest `last_lsn` of any
record persisted in a stream chunk at the moment of the call (recorded
for specification purposes only; it is no part of the wire message). -/
structure StatusCall where
  written : Nat
  flushed : Nat
  applied : Nat
  ts : Nat
  reply : Nat
  ghost_max_persisted : Nat

/-- The in-memory state of the `copy_realtime_changes` loop plus the ghost
sink state: `persisted` is the cumulative list of stream chunk objects
under `realtime_changes/` (pre-existing ones included), `calls` the
status updates sent so far.  `skipping_events`/`resume_lsn` are the
replication client's resume filter state. -/
structure StreamState where
  ctx : ChunkCtx
  persisted : List (Nat × List Event)
  last_lsn : Nat
  skipping_events : Bool
  resume_lsn : Nat
  calls : List StatusCall

/-- Modelled from the spec: `should_skip` of `pg_replicate`'s
`ReplicationClient` (the crate is not under src/).  Spec §4.C: while
`skipping_events` is true, every event whose LSN is ≤ `resume_lsn` is
dropped. -/
def should_skip (s : StreamState) (lsn : Nat) (_kind : EventType) : Bool :=
  s.skipping_events && decide (lsn ≤ s.resume_lsn)

/-- Modelled from the spec: `stop_skipping_events` of the replication
client ends the resume filter. -/
def stop_skipping_events (s : StreamState) : StreamState :=
  { s with skipping_events := false }

/-- Largest `last_lsn` of any record in the given chunk objects (0 when
none). -/
def maxPersistedLsn (sink : List (Nat × List Event)) : Nat :=
  (sink.flatMap (fun c => c.2.map (fun e => e.last_lsn))).foldr max 0

/-- All events currently at the destination or still buffered, in write
order. -/
def allEvents (s : StreamState) : List Event :=
  (s.persisted.flatMap (fun c => c.2)) ++ s.ctx.data_chunk_buf

/-- The shared tail of every append arm of `copy_realtime_changes`
(e.g. main.rs:168-187): push the event through `event_to_cbor` into the
buffer, run `try_save_data_chunk`, and advance `last_lsn` to `wal_end`
only when a chunk was flushed and `wal_end ≠ 0`. -/
def handle_append (putOk : Bool) (ev : Event) (wal_end : Nat)
    (s : StreamState) : Except RunError StreamState :=
  match try_save_data_chunk putOk (append_event ev s.ctx) s.persisted with
  | .error e => .error e
  | .ok (saved, ctx', sink') =>
    let s' := { s with ctx := ctx', persisted := sink' }
    if saved ∧ wal_end ≠ 0 then .ok { s' with last_lsn := wal_end } else .ok s'

/-- One iteration of the `copy_realtime_changes` message loop
(main.rs:157-386).  `relMap` is `rel_id_to_schema`; `parseTs` abstracts
the chrono timestamp parser; `putOk` is the S3 put outcome used by any
flush in this iteration; `now` stands for the wall clock (for keepalives:
`postgres_epoch.elapsed().as_micros()`). -/
def step (parseTs : String → Option Int) (relMap : Nat → Option TableSchema)
    (putOk : Bool) (now : Nat) (msg : ReplMessage) (s : StreamState) :
    Except RunError StreamState :=
  match msg with
  | .XLogData wal_end lm =>
    match lm with
    | .Begin b =>
      if should_skip s wal_end .Begin then .ok s
      else handle_append putOk
        (event_to_cbor .Begin none (begin_body_to_event_data b) now wal_end) wal_end s
    | .Commit c =>
      if should_skip s wal_end .Commit then .ok (stop_skipping_events s)
      else handle_append putOk
        (event_to_cbor .Commit none (commit_body_to_event_data c) now wal_end) wal_end s
    | .Origin => .ok s
    | .Relation r =>
      if should_skip s wal_end .Relation then .ok s
      else
        match relMap r.rel_id with
        | some schema => handle_append putOk
            (event_to_cbor .Relation (some schema) (relation_body_to_event_data r) now wal_end)
            wal_end s
        | none => .error (.relationIdNotFound r.rel_id)
    | .TypeMsg => .ok s
    | .Insert relId tuple =>
      if should_skip s wal_end .Insert then .ok s
      else
        match relMap relId with
        | some schema =>
          match get_data parseTs schema tuple with
          | some data => handle_append putOk
              (event_to_cbor .Insert (some schema) data now wal_end) wal_end s
          | none => .error .panicked
        | none => .error (.relationIdNotFound relId)
    | .Update relId new_tuple =>
      if should_skip s wal_end .Update then .ok s
      else
        match relMap relId with
        | some schema =>
          match get_data parseTs schema new_tuple with
          | some data => handle_append putOk
              (event_to_cbor .Update (some schema) data now wal_end) wal_end s
          | none => .error .panicked
        | none => .error (.relationIdNotFound relId)
    | .Delete relId key_tuple old_tuple =>
      if should_skip s wal_end .Delete then .ok s
      else
        match relMap relId with
        | some schema =>
          match key_tuple.or old_tuple with
          | some tuple =>
            match get_data parseTs schema tuple with
            | some data => handle_append putOk
                (event_to_cbor .Delete (some schema) data now wal_end) wal_end s
            | none => .error .panicked
          | none => .error .panicked
        | none => .error (.relationIdNotFound relId)
    | .Truncate => .ok s
    | .Other => .error .unsupportedLogical
  | .PrimaryKeepAlive _ reply =>
    if reply = 1 then
      .ok { s with calls := s.calls ++
        [{ written := s.last_lsn, flushed := s.last_lsn, applied := s.last_lsn,
           ts := now, reply := 0,
           ghost_max_persisted := maxPersistedLsn s.persisted }] }
    else .ok s
  | .Other => .error .unsupportedRepl

/-- One message given to the loop, with the per-iteration environment. -/
structure StepInput where
  putOk : Bool
  now : Nat
  msg : ReplMessage

/-- The states reached by running the loop over a message list, in order;
the trace stops at the first fatal error (whose `Err` return ends the
run). -/
def runSteps (parseTs : String → Option Int) (relMap : Nat → Option TableSchema) :
    List StepInput → StreamState → List StreamState
  | [], _ => []
  | i :: rest, s =>
    match step parseTs relMap i.putOk i.now i.msg s with
    | .ok s' => s' :: runSteps parseTs relMap rest s'
    | .error _ => []

/-- The initial loop state as wired in `main` and the head of
`copy_realtime_changes` (main.rs:96-98, 144-154): `data_chunk_count`
starts at `resumption_data.map(last_file_name).unwrap_or(0)`, `last_lsn`
at `repl_client.consistent_point`; the resume filter fields come from the
hint (modelled from spec §4.C/§4.F; without a hint nothing is skipped).
`prior` is the ghost list of stream chunks already in the bucket. -/
def init_state (resumption : Option ResumptionData) (consistent_point : Nat)
    (prior : List (Nat × List Event)) : StreamState :=
  { ctx := { row_count := 0,
             data_chunk_count := (resumption.map (fun rd => rd.last_file_name)).getD 0,
             data_chunk_buf := [] },
    persisted := prior,
    last_lsn := consistent_point,
    skipping_events := (resumption.map (fun rd => rd.skipping_events)).getD false,
    resume_lsn := (resumption.map (fun rd => rd.resume_lsn)).getD 0,
    calls := [] }

/-! ## Behaviour of the append/flush path -/

theorem handle_append_no_flush {putOk : Bool} {ev : Event} {wal_end : Nat}
    {s : StreamState} (h10 : s.ctx.row_count + 1 ≠ ROWS_PER_DATA_CHUNK) :
    handle_append putOk ev wal_end s =
      .ok { s with ctx := { row_count := s.ctx.row_count + 1,
                            data_chunk_count := s.ctx.data_chunk_count,
                            data_chunk_buf := s.ctx.data_chunk_buf ++ [ev] } } := by
  simp [handle_append, try_save_data_chunk, append_event, h10]

theorem handle_append_flush {ev : Event} {wal_end : Nat} {s : StreamState}
    (h10 : s.ctx.row_count + 1 = ROWS_PER_DATA_CHUNK) :
    handle_append true ev wal_end s =
      .ok (if wal_end ≠ 0 then
            { s with
                ctx := { row_count := 0,
                         data_chunk_count := s.ctx.data_chunk_count + 1,
                         data_chunk_buf := [] },
                persisted := s.persisted ++
                  [(s.ctx.data_chunk_count + 1, s.ctx.data_chunk_buf ++ [ev])],
                last_lsn := wal_end }
          else
            { s with
                ctx := { row_count := 0,
                         data_chunk_count := s.ctx.data_chunk_count + 1,
                         data_chunk_buf := [] },
                persisted := s.persisted ++
                  [(s.ctx.data_chunk_count + 1, s.ctx.data_chunk_buf ++ [ev])] }) := by
  by_cases hw : wal_end ≠ 0
  · simp [handle_append, try_save_data_chunk, append_event, h10, hw]
  · simp [handle_append, try_save_data_chunk, append_event, h10, hw]

theorem handle_append_flush_fail {ev : Event} {wal_end : Nat} {s : StreamState}
    (h10 : s.ctx.row_count + 1 = ROWS_PER_DATA_CHUNK) :
    handle_append false ev wal_end s = .error .sinkPut := by
  simp [handle_append, try_save_data_chunk, append_event, h10]

/-- Every successful loop iteration is of one of four shapes: the state is
untouched (ignored or skipped message), the resume filter is switched off
(skipped Commit), a status update is recorded (keepalive with reply = 1),
or an event whose recorded `last_lsn` is the message's `wal_end` goes
through the append/flush path. -/
theorem step_ok_cases {parseTs : String → Option Int}
    {relMap : Nat → Option TableSchema} {putOk : Bool} {now : Nat}
    {msg : ReplMessage} {s s' : StreamState}
    (h : step parseTs relMap putOk now msg s = .ok s') :
    s' = s
    ∨ s' = stop_skipping_events s
    ∨ s' = { s with calls := s.calls ++
        [{ written := s.last_lsn, flushed := s.last_lsn, applied := s.last_lsn,
           ts := now, reply := 0,
           ghost_max_persisted := maxPersistedLsn s.persisted }] }
    ∨ ∃ ev wal_end, ev.last_lsn = wal_end ∧ handle_append putOk ev wal_end s = .ok s' := by
  cases msg with
  | XLogData wal_end lm =>
    cases lm <;> simp only [step] at h <;> repeat' split at h
    all_goals
      first
        | exact Or.inl (Except.ok.inj h).symm
        | exact Or.inr (Or.inl (Except.ok.inj h).symm)
        | exact Or.inr (Or.inr (Or.inr ⟨_, wal_end, rfl, h⟩))
        | exact absurd h (by simp)
  | PrimaryKeepAlive w reply =>
    simp only [step] at h
    split at h
    · exact Or.inr (Or.inr (Or.inl (Except.ok.inj h).symm))
    · exact Or.inl (Except.ok.inj h).symm
  | Other => exact absurd h (by simp [step])

/-! ## Sink invariants of the stream copier -/

theorem le_foldr_max_of_mem {l : List Nat} {a : Nat} (h : a ∈ l) :
    a ≤ l.foldr max 0 := by
  induction l with
  | nil => cases h
  | cons b rest ih =>
    rcases List.mem_cons.mp h with hb | hr
    · subst hb
      exact Nat.le_max_left _ _
    · exact Nat.le_trans (ih hr) (Nat.le_max_right _ _)

theorem foldr_max_append (l₁ l₂ : List Nat) :
    (l₁ ++ l₂).foldr max 0 = max (l₁.foldr max 0) (l₂.foldr max 0) := by
  induction l₁ with
  | nil => simp
  | cons a rest ih => simp [ih, Nat.max_assoc]

theorem maxPersistedLsn_append (sink : List (Nat × List Event))
    (c : Nat × List Event) :
    maxPersistedLsn (sink ++ [c]) =
      max (maxPersistedLsn sink) ((c.2.map (fun e => e.last_lsn)).foldr max 0) := by
  simp only [maxPersistedLsn, List.flatMap_append, foldr_max_append]
  simp

theorem le_maxPersistedLsn_append (sink : List (Nat × List Event))
    (c : Nat × List Event) :
    maxPersistedLsn sink ≤ maxPersistedLsn (sink ++ [c]) := by
  rw [maxPersistedLsn_append]
  exact Nat.le_max_left _ _

theorem lsn_le_maxPersistedLsn {sink : List (Nat × List Event)}
    {c : Nat × List Event} {e : Event} (hc : c ∈ sink) (he : e ∈ c.2) :
    e.last_lsn ≤ maxPersistedLsn sink := by
  apply le_foldr_max_of_mem
  simp only [maxPersistedLsn, List.mem_flatMap]
  exact ⟨c, hc, List.mem_map_of_mem _ he⟩

/-- Chunk-shape invariant of the stream loop: the buffer length tracks
`row_count`, the buffer never reaches a full chunk, and relative to the
pre-existing chunks `P0` and the starting counter `c0` the newly written
chunks are numbered `c0+1, c0+2, …` in order, each holding exactly
`ROWS_PER_DATA_CHUNK` events. -/
def NewChunksInv (c0 : Nat) (P0 : List (Nat × List Event)) (s : StreamState) : Prop :=
  s.ctx.row_count = s.ctx.data_chunk_buf.length ∧
  s.ctx.row_count < ROWS_PER_DATA_CHUNK ∧
  ∃ new, s.persisted = P0 ++ new ∧
    new.map Prod.fst = List.range' (c0 + 1) new.length ∧
    s.ctx.data_chunk_count = c0 + new.length ∧
    ∀ c ∈ new, c.2.length = ROWS_PER_DATA_CHUNK

theorem handle_append_newChunksInv {c0 : Nat} {P0 : List (Nat × List Event)}
    {putOk : Bool} {ev : Event} {wal_end : Nat} {s s' : StreamState}
    (hinv : NewChunksInv c0 P0 s)
    (h : handle_append putOk ev wal_end s = .ok s') :
    NewChunksInv c0 P0 s' := by
  obtain ⟨hrc, hlt, new, hnew, hnums, hcount, hlens⟩ := hinv
  by_cases h10 : s.ctx.row_count + 1 = ROWS_PER_DATA_CHUNK
  · cases putOk with
    | false => rw [handle_append_flush_fail h10] at h; cases h
    | true =>
      rw [handle_append_flush h10] at h
      have hs' := (Except.ok.inj h).symm
      have hbuflen : (s.ctx.data_chunk_buf ++ [ev]).length = ROWS_PER_DATA_CHUNK := by
        simp [List.length_append]
        omega
      have hinv' : NewChunksInv c0 P0
          { s with
              ctx := { row_count := 0,
                       data_chunk_count := s.ctx.data_chunk_count + 1,
                       data_chunk_buf := [] },
              persisted := s.persisted ++
                [(s.ctx.data_chunk_count + 1, s.ctx.data_chunk_buf ++ [ev])] } := by
        refine ⟨by simp, by simp [ROWS_PER_DATA_CHUNK], ?_⟩
        refine ⟨new ++ [(s.ctx.data_chunk_count + 1, s.ctx.data_chunk_buf ++ [ev])],
                by simp [hnew], ?_, by simp [hcount]; omega, ?_⟩
        · rw [List.map_append, hnums]
          have hlen1 : (new ++ [(s.ctx.data_chunk_count + 1,
              s.ctx.data_chunk_buf ++ [ev])]).length = new.length + 1 := by simp
          rw [hlen1, List.range'_concat]
          simp only [List.map_cons, List.map_nil]
          congr 1
          simp only [List.cons.injEq, and_true]
          rw [hcount]
          omega
        · intro c hc
          rcases List.mem_append.mp hc with hold | hlast
          · exact hlens c hold
          · rcases List.mem_singleton.mp hlast with rfl
            exact hbuflen
      by_cases hw : wal_end ≠ 0
      · rw [if_pos hw] at hs'
        subst hs'
        exact hinv'
      · rw [if_neg hw] at hs'
        subst hs'
        exact hinv'
  · rw [handle_append_no_flush h10] at h
    have hs' := (Except.ok.inj h).symm
    subst hs'
    refine ⟨by simp [hrc], by simp; omega, new, by simp [hnew], hnums, by simp [hcount], hlens⟩

theorem step_newChunksInv {c0 : Nat} {P0 : List (Nat × List Event)}
    {parseTs : String → Option Int} {relMap : Nat → Option TableSchema}
    {putOk : Bool} {now : Nat} {msg : ReplMessage} {s s' : StreamState}
    (hinv : NewChunksInv c0 P0 s)
    (h : step parseTs relMap putOk now msg s = .ok s') :
    NewChunksInv c0 P0 s' := by
  rcases step_ok_cases h with rfl | rfl | rfl | ⟨ev, wal_end, _, happ⟩
  · exact hinv
  · exact hinv
  · exact hinv
  · exact handle_append_newChunksInv hinv happ

/-- LSN/acknowledgement invariant of the stream loop: `last_lsn` never
exceeds the largest record LSN persisted in a stream chunk, and every
status update sent so far carried equal written/flushed/applied positions
not exceeding the persisted maximum at the time of the call. -/
def LsnCallsInv (s : StreamState) : Prop :=
  s.last_lsn ≤ maxPersistedLsn s.persisted ∧
  ∀ c ∈ s.calls, c.written = c.flushed ∧ c.flushed = c.applied ∧
    c.written ≤ c.ghost_max_persisted

theorem handle_append_lsnCallsInv {putOk : Bool} {ev : Event} {wal_end : Nat}
    {s s' : StreamState} (hinv : LsnCallsInv s) (hev : ev.last_lsn = wal_end)
    (h : handle_append putOk ev wal_end s = .ok s') :
    LsnCallsInv s' := by
  obtain ⟨hlsn, hcalls⟩ := hinv
  by_cases h10 : s.ctx.row_count + 1 = ROWS_PER_DATA_CHUNK
  · cases putOk with
    | false => rw [handle_append_flush_fail h10] at h; cases h
    | true =>
      rw [handle_append_flush h10] at h
      have hs' := (Except.ok.inj h).symm
      have hwle : wal_end ≤ maxPersistedLsn (s.persisted ++
          [(s.ctx.data_chunk_count + 1, s.ctx.data_chunk_buf ++ [ev])]) := by
        rw [← hev]
        exact lsn_le_maxPersistedLsn (List.mem_append_right _ (List.mem_singleton_self _))
          (List.mem_append_right _ (List.mem_singleton_self _))
      by_cases hw : wal_end ≠ 0
      · rw [if_pos hw] at hs'
        subst hs'
        exact ⟨hwle, hcalls⟩
      · rw [if_neg hw] at hs'
        subst hs'
        exact ⟨Nat.le_trans hlsn (le_maxPersistedLsn_append _ _), hcalls⟩
  · rw [handle_append_no_flush h10] at h
    have hs' := (Except.ok.inj h).symm
    subst hs'
    exact ⟨hlsn, hcalls⟩

theorem step_lsnCallsInv {parseTs : String → Option Int}
    {relMap : Nat → Option TableSchema} {putOk : Bool} {now : Nat}
    {msg : ReplMessage} {s s' : StreamState}
    (hinv : LsnCallsInv s)
    (h : step parseTs relMap putOk now msg s = .ok s') :
    LsnCallsInv s' := by
  rcases step_ok_cases h with rfl | rfl | rfl | ⟨ev, wal_end, hev, happ⟩
  · exact hinv
  · exact hinv
  · obtain ⟨hlsn, hcalls⟩ := hinv
    refine ⟨hlsn, ?_⟩
    intro c hc
    rcases List.mem_append.mp hc with hold | hnew
    · exact hcalls c hold
    · rcases List.mem_singleton.mp hnew with rfl
      exact ⟨rfl, rfl, hlsn⟩
  · exact handle_append_lsnCallsInv hinv hev happ

/-- Generic trace invariance: a property preserved by every successful
step holds at every state of the trace. -/
theorem runSteps_inv {parseTs : String → Option Int}
    {relMap : Nat → Option TableSchema} (Inv : StreamState → Prop)
    (hpres : ∀ (i : StepInput) (s s' : StreamState), Inv s →
      step parseTs relMap i.putOk i.now i.msg s = .ok s' → Inv s') :
    ∀ (inputs : List StepInput) (s : StreamState), Inv s →
      ∀ s' ∈ runSteps parseTs relMap inputs s, Inv s' := by
  intro inputs
  induction inputs with
  | nil => intro s _ s' hmem; cases hmem
  | cons i rest ih =>
    intro s hs s' hmem
    simp only [runSteps] at hmem
    cases hstep : step parseTs relMap i.putOk i.now i.msg s with
    | ok s₁ =>
      rw [hstep] at hmem
      rcases List.mem_cons.mp hmem with rfl | htail
      · exact hpres i s s' hs hstep
      · exact ih s₁ (hpres i s s₁ hs hstep) s' htail
    | error e =>
      rw [hstep] at hmem
      cases hmem

/-- Per-step characterization of `last_lsn` movement: if an iteration
changes `last_lsn`, the iteration flushed a new chunk, the new value is
nonzero, and the flushed chunk contains a record carrying exactly that
LSN. -/
theorem step_lsn_advance {parseTs : String → Option Int}
    {relMap : Nat → Option TableSchema} {putOk : Bool} {now : Nat}
    {msg : ReplMessage} {s s' : StreamState}
    (h : step parseTs relMap putOk now msg s = .ok s')
    (hne : s'.last_lsn ≠ s.last_lsn) :
    s'.last_lsn ≠ 0 ∧ ∃ ch, s'.persisted = s.persisted ++ [ch] ∧
      ∃ e ∈ ch.2, e.last_lsn = s'.last_lsn := by
  rcases step_ok_cases h with rfl | rfl | rfl | ⟨ev, wal_end, hev, happ⟩
  · exact absurd rfl hne
  · exact absurd rfl hne
  · exact absurd rfl hne
  · by_cases h10 : s.ctx.row_count + 1 = ROWS_PER_DATA_CHUNK
    · cases putOk with
      | false => rw [handle_append_flush_fail h10] at happ; cases happ
      | true =>
        rw [handle_append_flush h10] at happ
        have hs' := (Except.ok.inj happ).symm
        by_cases hw : wal_end ≠ 0
        · rw [if_pos hw] at hs'
          subst hs'
          refine ⟨hw, ⟨(s.ctx.data_chunk_count + 1, s.ctx.data_chunk_buf ++ [ev]), rfl, ?_⟩⟩
          exact ⟨ev, List.mem_append_right _ (List.mem_singleton_self _), hev⟩
        · rw [if_neg hw] at hs'
          subst hs'
          exact absurd rfl hne
    · rw [handle_append_no_flush h10] at happ
      have hs' := (Except.ok.inj happ).symm
      subst hs'
      exact absurd rfl hne

/-! ## Resumption (main.rs:509-596) -/

/-- `largest_realtime_file_number` (main.rs:563-596): fold over the listed
keys keeping the largest.  Keys are represented by their parsed numeric
suffix (the source strips the fixed text `realtime_changes/` and parses
the rest as `u32`, failing on any foreign key; well-formed buckets only
contain keys written by `try_save_data_chunk`). -/
def largest_realtime_file_number (keys : List Nat) : Option Nat :=
  keys.foldl (fun largest key =>
    match largest with
    | some last_largest => if key > last_largest then some key else some last_largest
    | none => some key) none

theorem largest_realtime_go (keys : List Nat) :
    ∀ a : Nat, ∃ n, keys.foldl (fun largest key =>
      match largest with
      | some last_largest => if key > last_largest then some key else some last_largest
      | none => some key) (some a) = some n ∧
      (n = a ∨ n ∈ keys) ∧ a ≤ n ∧ ∀ k ∈ keys, k ≤ n := by
  induction keys with
  | nil => exact fun a => ⟨a, rfl, Or.inl rfl, Nat.le_refl a, by intro k hk; cases hk⟩
  | cons k rest ih =>
    intro a
    simp only [List.foldl_cons]
    by_cases hk : k > a
    · rw [if_pos hk]
      obtain ⟨n, heq, hmem, hle, hub⟩ := ih k
      refine ⟨n, heq, ?_, by omega, ?_⟩
      · rcases hmem with rfl | hm
        · exact Or.inr (List.mem_cons_self _ _)
        · exact Or.inr (List.mem_cons_of_mem _ hm)
      · intro k' hk'
        rcases List.mem_cons.mp hk' with rfl | hm
        · exact hle
        · exact hub k' hm
    · rw [if_neg hk]
      obtain ⟨n, heq, hmem, hle, hub⟩ := ih a
      refine ⟨n, heq, ?_, hle, ?_⟩
      · rcases hmem with rfl | hm
        · exact Or.inl rfl
        · exact Or.inr (List.mem_cons_of_mem _ hm)
      · intro k' hk'
        rcases List.mem_cons.mp hk' with rfl | hm
        · omega
        · exact hub k' hm

/-- The fold returns precisely the maximum of a non-empty key list. -/
theorem largest_realtime_file_number_spec (keys : List Nat) (hne : keys ≠ []) :
    ∃ n, largest_realtime_file_number keys = some n ∧ n ∈ keys ∧
      ∀ k ∈ keys, k ≤ n := by
  cases keys with
  | nil => exact absurd rfl hne
  | cons k rest =>
    obtain ⟨n, heq, hmem, hle, hub⟩ := largest_realtime_go rest k
    refine ⟨n, ?_, ?_, ?_⟩
    · simpa [largest_realtime_file_number] using heq
    · rcases hmem with rfl | hm
      · exact List.mem_cons_self _ _
      · exact List.mem_cons_of_mem _ hm
    · intro k' hk'
      rcases List.mem_cons.mp hk' with rfl | hm
      · exact hle
      · exact hub k' hm

/-- `get_relatime_resumption_data` (main.rs:511-555) over the sink
contents: `keys` lists the numeric suffixes under `realtime_changes/`,
`fetch` gives each object's bytes, and `decode` abstracts
`serde_cbor::from_reader` for the `Event` type (external library code).
If no key exists the run starts fresh (`Ok(None)`); otherwise the largest
object is scanned with the tail scan (a scan panic or a decode failure is
fatal) and the hint is built from the decoded event exactly as at
main.rs:549-554. -/
def get_relatime_resumption_data (keys : List Nat) (fetch : Nat → List Nat)
    (decode : List Nat → Option Event) : Except RunError (Option ResumptionData) :=
  match largest_realtime_file_number keys with
  | none => .ok none
  | some last_file_name =>
    match parse_scan (fetch last_file_name) with
    | none => .error .panicked
    | some v =>
      match decode v with
      | none => .error .decodeFailed
      | some event =>
        .ok (some { resume_lsn := event.last_lsn,
                    last_event_type := event.event_type,
                    last_file_name := last_file_name,
                    skipping_events := decide (event.event_type ≠ EventType.Commit) })

/-! ## Snapshot copier (`copy_table`, main.rs:672-729) -/

/-- A decoded cell of a binary COPY row, as accessed through
`BinaryCopyOutRow::get::<T>(i)` (tokio_postgres, external code): the
typed accessor panics on an index/type mismatch, so cells carry their
type.  Timestamps are carried directly as nanosecond values (the
`timestamp_nanos_opt` conversion). -/
inductive PgValue where
  | int4 (v : Int)
  | varchar (s : String)
  | timestampNanos (ns : Int)
  | nullVal

/-- `get_val_from_row` (main.rs:756-776): typed extraction of column `i`;
a wrong type, a NULL, or a missing index panics inside `row.get`
(`.error .panicked`), an unsupported type is the `anyhow` error. -/
def get_val_from_row (typ : PgType) (row : List PgValue) (i : Nat) :
    Except RunError Value :=
  match typ with
  | .int4 =>
    match row.get? i with
    | some (.int4 v) => .ok (Value.Integer v)
    | _ => .error .panicked
  | .varchar =>
    match row.get? i with
    | some (.varchar s) => .ok (Value.Text s)
    | _ => .error .panicked
  | .timestamp =>
    match row.get? i with
    | some (.timestampNanos ns) => .ok (Value.Integer ns)
    | _ => .error .panicked
  | .other _ => .error .unsupportedType

/-- The attribute loop of `binary_copy_out_row_to_cbor_buf`
(main.rs:737-741). -/
def row_data_go (row : List PgValue) :
    List Attribute → Nat → Except RunError (List (String × Value))
  | [], _ => .ok []
  | attr :: attrs, i =>
    match get_val_from_row attr.typ row i with
    | .error e => .error e
    | .ok v =>
      match row_data_go row attrs (i + 1) with
      | .error e => .error e
      | .ok rest => .ok ((attr.name, v) :: rest)

/-- `binary_copy_out_row_to_cbor_buf` (main.rs:731-754): one COPY row
becomes an `Insert` event with `relation_id = Some(relation_id)` and
`last_lsn = 0`. -/
def binary_copy_out_row_to_event (now : Nat) (ts : TableSchema)
    (row : List PgValue) : Except RunError Event :=
  match row_data_go row ts.attributes 0 with
  | .error e => .error e
  | .ok dm => .ok { event_type := EventType.Insert, timestamp := now,
                    relation_id := some ts.relation_id,
                    last_lsn := 0, data := Value.Map dm }

/-- `write_table_schema_to_buf` (main.rs:778-786): the synthetic `Schema`
event, framed with `last_lsn = 0`. -/
def write_table_schema_event (now : Nat) (ts : TableSchema) : Event :=
  event_to_cbor EventType.Schema (some ts) (table_schema_to_event_data ts) now 0

/-- The row loop of `copy_table` (main.rs:706-718), threading the chunk
state and the list of written chunk objects (sink puts modelled as
succeeding; a failed put is fatal and writes nothing further). -/
def copy_rows (now : Nat) (ts : TableSchema) :
    List (List PgValue) → ChunkCtx → List (Nat × List Event) →
    Except RunError (ChunkCtx × List (Nat × List Event))
  | [], ctx, sink => .ok (ctx, sink)
  | row :: rest, ctx, sink =>
    match binary_copy_out_row_to_event now ts row with
    | .error e => .error e
    | .ok ev =>
      match try_save_data_chunk true (append_event ev ctx) sink with
      | .error e => .error e
      | .ok (_, ctx', sink') => copy_rows now ts rest ctx' sink'

/-- `copy_table` (main.rs:672-729) as the list of chunk objects written
under `table_copies/<schema>.<name>/`: the schema event goes through the
same buffer, the rows follow, and a non-empty final buffer is flushed as
chunk `data_chunk_count + 1` (main.rs:720-724).  The `done` marker is a
separate empty object written afterwards, not a chunk. -/
def copy_table_run (now : Nat) (ts : TableSchema) (rows : List (List PgValue)) :
    Except RunError (List (Nat × List Event)) :=
  let ctx0 : ChunkCtx := { row_count := 0, data_chunk_count := 0, data_chunk_buf := [] }
  match try_save_data_chunk true (append_event (write_table_schema_event now ts) ctx0) [] with
  | .error e => .error e
  | .ok (_, ctx1, sink1) =>
    match copy_rows now ts rows ctx1 sink1 with
    | .error e => .error e
    | .ok (ctx2, sink2) =>
      if ctx2.data_chunk_buf.isEmpty then .ok sink2
      else .ok (sink2 ++ [(ctx2.data_chunk_count + 1, ctx2.data_chunk_buf)])

/-! ## Chunk-shape facts for the snapshot copier -/

theorem try_save_eq_no {putOk : Bool} {ctx : ChunkCtx}
    {sink : List (Nat × List Event)}
    (h10 : ctx.row_count + 1 ≠ ROWS_PER_DATA_CHUNK) :
    try_save_data_chunk putOk ctx sink =
      .ok (false, { ctx with row_count := ctx.row_count + 1 }, sink) := by
  simp [try_save_data_chunk, h10]

theorem try_save_eq_flush {ctx : ChunkCtx} {sink : List (Nat × List Event)}
    (h10 : ctx.row_count + 1 = ROWS_PER_DATA_CHUNK) :
    try_save_data_chunk true ctx sink =
      .ok (true,
           { row_count := 0, data_chunk_count := ctx.data_chunk_count + 1,
             data_chunk_buf := [] },
           sink ++ [(ctx.data_chunk_count + 1, ctx.data_chunk_buf)]) := by
  simp [try_save_data_chunk, h10]

theorem flatMap_len_of_all_full {sink : List (Nat × List Event)}
    (h : ∀ c ∈ sink, c.2.length = ROWS_PER_DATA_CHUNK) :
    (sink.flatMap (fun c => c.2)).length = ROWS_PER_DATA_CHUNK * sink.length := by
  induction sink with
  | nil => simp
  | cons c rest ih =>
    simp only [List.flatMap_cons, List.length_append, List.length_cons]
    rw [h c (List.mem_cons_self _ _), ih (fun d hd => h d (List.mem_cons_of_mem _ hd))]
    ring

/-- Invariant threaded through the snapshot row loop: the buffer length
tracks `row_count` and stays below a full chunk, the chunks written so
far are numbered `1, 2, …` with exactly `ROWS_PER_DATA_CHUNK` events
each, and the overall event sequence starts with the schema event `E0`. -/
def TableInv (E0 : Event) (ctx : ChunkCtx) (sink : List (Nat × List Event)) : Prop :=
  ctx.row_count = ctx.data_chunk_buf.length ∧
  ctx.row_count < ROWS_PER_DATA_CHUNK ∧
  sink.map Prod.fst = List.range' 1 sink.length ∧
  ctx.data_chunk_count = sink.length ∧
  (∀ c ∈ sink, c.2.length = ROWS_PER_DATA_CHUNK) ∧
  ∃ evs, sink.flatMap (fun c => c.2) ++ ctx.data_chunk_buf = E0 :: evs

theorem copy_rows_spec {now : Nat} {ts : TableSchema} {E0 : Event} :
    ∀ (rows : List (List PgValue)) (ctx : ChunkCtx)
      (sink : List (Nat × List Event)) (ctx' : ChunkCtx)
      (sink' : List (Nat × List Event)),
      TableInv E0 ctx sink →
      copy_rows now ts rows ctx sink = .ok (ctx', sink') →
      TableInv E0 ctx' sink' ∧
      (sink'.flatMap (fun c => c.2)).length + ctx'.data_chunk_buf.length =
        (sink.flatMap (fun c => c.2)).length + ctx.data_chunk_buf.length + rows.length := by
  intro rows
  induction rows with
  | nil =>
    intro ctx sink ctx' sink' hinv h
    simp only [copy_rows] at h
    have := Except.ok.inj h
    cases this
    exact ⟨hinv, by simp⟩
  | cons row rest ih =>
    intro ctx sink ctx' sink' hinv h
    obtain ⟨hrc, hlt, hnums, hcount, hlens, evs, hflat⟩ := hinv
    simp only [copy_rows] at h
    cases hev : binary_copy_out_row_to_event now ts row with
    | error e => simp [hev] at h
    | ok ev =>
      simp only [hev] at h
      have happrc : (append_event ev ctx).row_count = ctx.row_count := rfl
      by_cases h10 : ctx.row_count + 1 = ROWS_PER_DATA_CHUNK
      · simp only [try_save_eq_flush (show (append_event ev ctx).row_count + 1
            = ROWS_PER_DATA_CHUNK from by rw [happrc]; exact h10)] at h
        have hinv' : TableInv E0
            { row_count := 0, data_chunk_count := (append_event ev ctx).data_chunk_count + 1,
              data_chunk_buf := [] }
            (sink ++ [((append_event ev ctx).data_chunk_count + 1,
              (append_event ev ctx).data_chunk_buf)]) := by
          refine ⟨rfl, by simp [ROWS_PER_DATA_CHUNK], ?_, ?_, ?_, ?_⟩
          · rw [List.map_append, hnums]
            have hl1 : (sink ++ [((append_event ev ctx).data_chunk_count + 1,
                (append_event ev ctx).data_chunk_buf)]).length = sink.length + 1 := by simp
            rw [hl1, List.range'_concat]
            simp only [List.map_cons, List.map_nil]
            congr 1
            simp only [List.cons.injEq, and_true]
            show ctx.data_chunk_count + 1 = 1 + 1 * sink.length
            omega
          · simp [append_event, hcount]
          · intro c hc
            rcases List.mem_append.mp hc with hold | hlast
            · exact hlens c hold
            · rcases List.mem_singleton.mp hlast with rfl
              show (ctx.data_chunk_buf ++ [ev]).length = ROWS_PER_DATA_CHUNK
              simp [List.length_append]
              omega
          · refine ⟨evs ++ [ev], ?_⟩
            simp only [List.flatMap_append, List.flatMap_cons, List.flatMap_nil]
            show (sink.flatMap (fun c => c.2) ++ ((ctx.data_chunk_buf ++ [ev]) ++ [])) ++ []
              = E0 :: (evs ++ [ev])
            simp only [List.append_nil]
            rw [← List.append_assoc, hflat]
            rfl
        obtain ⟨hinv'', hlen''⟩ := ih _ _ _ _ hinv' h
        refine ⟨hinv'', ?_⟩
        rw [hlen'']
        simp only [List.flatMap_append, List.flatMap_cons, List.flatMap_nil,
          List.length_append, List.length_cons]
        show _ + ((ctx.data_chunk_buf ++ [ev]).length + 0) + _ + rest.length
          = _ + ctx.data_chunk_buf.length + (rest.length + 1)
        simp [List.length_append]
        omega
      · simp only [@try_save_eq_no true _ _ (show (append_event ev ctx).row_count + 1
            = ROWS_PER_DATA_CHUNK → False from by rw [happrc]; exact h10)] at h
        have hinv' : TableInv E0
            { append_event ev ctx with row_count := (append_event ev ctx).row_count + 1 }
            sink := by
          refine ⟨?_, ?_, hnums, hcount, hlens, ?_⟩
          · show ctx.row_count + 1 = (ctx.data_chunk_buf ++ [ev]).length
            simp [List.length_append, hrc]
          · show ctx.row_count + 1 < ROWS_PER_DATA_CHUNK
            omega
          · refine ⟨evs ++ [ev], ?_⟩
            show sink.flatMap (fun c => c.2) ++ (ctx.data_chunk_buf ++ [ev])
              = E0 :: (evs ++ [ev])
            rw [← List.append_assoc, hflat]
            rfl
        obtain ⟨hinv'', hlen''⟩ := ih _ _ _ _ hinv' h
        refine ⟨hinv'', ?_⟩
        rw [hlen'']
        show _ + (ctx.data_chunk_buf ++ [ev]).length + rest.length
          = _ + ctx.data_chunk_buf.length + (rest.length + 1)
        simp [List.length_append]
        omega

theorem table_head_facts {E0 : Event} {c1 : Nat × List Event}
    {r : List (Nat × List Event)} {rest evs : List Event}
    (hnums : (c1 :: r).map Prod.fst = List.range' 1 (c1 :: r).length)
    (hlens : ∀ c ∈ c1 :: r, c.2.length = ROWS_PER_DATA_CHUNK)
    (hflat : (c1 :: r).flatMap (fun c => c.2) ++ rest = E0 :: evs) :
    c1.1 = 1 ∧ c1.2.head? = some E0 ∧ c1.2.length = ROWS_PER_DATA_CHUNK := by
  have hlen1 : c1.2.length = ROWS_PER_DATA_CHUNK := hlens c1 (List.mem_cons_self _ _)
  refine ⟨?_, ?_, hlen1⟩
  · simp only [List.map_cons, List.length_cons, List.range'_succ] at hnums
    exact (List.cons.injEq _ _ _ _).mp hnums |>.1
  · cases hc : c1.2 with
    | nil => rw [hc] at hlen1; simp [ROWS_PER_DATA_CHUNK] at hlen1
    | cons e tl =>
      simp only [List.flatMap_cons, hc] at hflat
      have : e = E0 := by
        have h2 : e :: (tl ++ (r.flatMap (fun c => c.2) ++ rest)) = E0 :: evs := by
          rw [← hflat]
          simp [List.append_assoc]
        exact ((List.cons.injEq _ _ _ _).mp h2).1
      rw [this]
      rfl

/-- Chunk-level behaviour of `copy_table` (main.rs:672-729): for a
successful snapshot, the chunks written are numbered `1, 2, …` in write
order; every chunk holds exactly `ROWS_PER_DATA_CHUNK` events except
possibly the terminal one, which holds between 1 and `ROWS_PER_DATA_CHUNK`;
and chunk #1 starts with the synthetic `Schema` event and holds
`min ROWS_PER_DATA_CHUNK (1 + #rows)` events. -/
theorem copy_table_run_spec {now : Nat} {ts : TableSchema}
    {rows : List (List PgValue)} {chunks : List (Nat × List Event)}
    (h : copy_table_run now ts rows = .ok chunks) :
    chunks ≠ [] ∧
    chunks.map Prod.fst = List.range' 1 chunks.length ∧
    (∀ c ∈ chunks, c.2.length = ROWS_PER_DATA_CHUNK ∨
      (chunks.getLast? = some c ∧ 1 ≤ c.2.length ∧ c.2.length ≤ ROWS_PER_DATA_CHUNK)) ∧
    (∀ c, chunks.head? = some c → c.1 = 1 ∧
      c.2.head? = some (write_table_schema_event now ts) ∧
      c.2.length = min ROWS_PER_DATA_CHUNK (1 + rows.length)) := by
  have hR : ROWS_PER_DATA_CHUNK = 10 := rfl
  simp only [copy_table_run, append_event, try_save_data_chunk,
    ROWS_PER_DATA_CHUNK] at h
  norm_num at h
  cases hcr : copy_rows now ts rows
      { row_count := 1, data_chunk_count := 0,
        data_chunk_buf := [write_table_schema_event now ts] } [] with
  | error e => simp [hcr] at h
  | ok out =>
    obtain ⟨ctx2, sink2⟩ := out
    simp only [hcr] at h
    have hinv0 : TableInv (write_table_schema_event now ts)
        { row_count := 1, data_chunk_count := 0,
          data_chunk_buf := [write_table_schema_event now ts] } [] := by
      refine ⟨rfl, by simp [ROWS_PER_DATA_CHUNK], by simp, rfl, ?_, ⟨[], rfl⟩⟩
      intro c hc
      cases hc
    obtain ⟨hinv2, hlen2⟩ := copy_rows_spec rows _ _ _ _ hinv0 hcr
    obtain ⟨hrc2, hlt2, hnums2, hcount2, hlens2, evs2, hflat2⟩ := hinv2
    simp only [List.flatMap_nil, List.length_nil, List.length_cons] at hlen2
    have htotal : (sink2.flatMap (fun c => c.2)).length = 10 * sink2.length := by
      rw [flatMap_len_of_all_full hlens2, hR]
    by_cases hbe : ctx2.data_chunk_buf.isEmpty
    · rw [if_pos hbe] at h
      have hchunks : chunks = sink2 := (Except.ok.inj h).symm
      have hbuf : ctx2.data_chunk_buf = [] := List.isEmpty_iff.mp hbe
      rw [hbuf, List.append_nil] at hflat2
      rw [hbuf] at hlen2
      simp only [List.length_nil, Nat.add_zero] at hlen2
      subst hchunks
      have hne : chunks ≠ [] := by
        intro hnil
        rw [hnil] at hflat2
        cases hflat2
      refine ⟨hne, hnums2, fun c hc => Or.inl (hlens2 c hc), ?_⟩
      intro c hc
      cases hch : chunks with
      | nil => exact absurd hch hne
      | cons c1 r =>
        rw [hch] at hc hnums2 hlens2 hflat2 htotal hlen2
        rw [List.head?_cons] at hc
        have hc1 : c = c1 := (Option.some.inj hc).symm
        subst hc1
        obtain ⟨h1, hhead, hlen⟩ := table_head_facts hnums2 hlens2
          (by rw [List.append_nil]; exact hflat2)
        refine ⟨h1, hhead, ?_⟩
        have hge : ROWS_PER_DATA_CHUNK ≤ 1 + rows.length := by
          rw [htotal] at hlen2
          simp only [List.length_cons] at hlen2
          omega
        rw [hlen, Nat.min_eq_left hge]
    · rw [if_neg hbe] at h
      have hchunks : chunks = sink2 ++ [(ctx2.data_chunk_count + 1, ctx2.data_chunk_buf)] :=
        (Except.ok.inj h).symm
      subst hchunks
      have hbufne : ctx2.data_chunk_buf ≠ [] := by
        intro hnil
        rw [hnil] at hbe
        exact hbe List.isEmpty_nil
      have hbufpos : 0 < ctx2.data_chunk_buf.length := List.length_pos.mpr hbufne
      refine ⟨by simp, ?_, ?_, ?_⟩
      · rw [List.map_append, hnums2]
        have hl1 : (sink2 ++ [(ctx2.data_chunk_count + 1, ctx2.data_chunk_buf)]).length
            = sink2.length + 1 := by simp
        rw [hl1, List.range'_concat]
        simp only [List.map_cons, List.map_nil]
        congr 1
        simp only [List.cons.injEq, and_true]
        omega
      · intro c hc
        rcases List.mem_append.mp hc with hold | hlast
        · exact Or.inl (hlens2 c hold)
        · rcases List.mem_singleton.mp hlast with rfl
          refine Or.inr ⟨List.getLast?_concat _, ?_, ?_⟩
          · show 1 ≤ ctx2.data_chunk_buf.length
            omega
          · show ctx2.data_chunk_buf.length ≤ ROWS_PER_DATA_CHUNK
            omega
      · intro c hc
        cases hs2 : sink2 with
        | nil =>
          rw [hs2] at hc hcount2 hflat2 hlen2 htotal
          simp only [List.nil_append, List.head?_cons] at hc
          have hc1 : c = (ctx2.data_chunk_count + 1, ctx2.data_chunk_buf) :=
            (Option.some.inj hc).symm
          subst hc1
          simp only [List.flatMap_nil, List.nil_append] at hflat2
          refine ⟨by simp [hcount2], ?_, ?_⟩
          · show ctx2.data_chunk_buf.head? = some (write_table_schema_event now ts)
            rw [hflat2]
            rfl
          · show ctx2.data_chunk_buf.length = min ROWS_PER_DATA_CHUNK (1 + rows.length)
            simp only [List.length_nil, Nat.zero_add, List.flatMap_nil] at hlen2 htotal
            rw [Nat.min_eq_right (by omega : 1 + rows.length ≤ ROWS_PER_DATA_CHUNK)]
            omega
        | cons c1 r =>
          rw [hs2] at hc hnums2 hlens2 hflat2 hlen2 htotal
          simp only [List.cons_append, List.head?_cons] at hc
          have hc1 : c = c1 := (Option.some.inj hc).symm
          subst hc1
          obtain ⟨h1, hhead, hlen⟩ := table_head_facts hnums2 hlens2 hflat2
          refine ⟨h1, hhead, ?_⟩
          have hge : ROWS_PER_DATA_CHUNK ≤ 1 + rows.length := by
            rw [htotal] at hlen2
            simp only [List.length_cons] at hlen2
            omega
          rw [hlen, Nat.min_eq_left hge]

/-! ## Helper lemmas for the claim theorems -/

theorem concatFrames_append (a b : List (List Nat)) :
    concatFrames (a ++ b) = concatFrames a ++ concatFrames b := by
  simp [concatFrames]

/-- The tail scan of a chunk that is exactly a concatenation of complete
frames returns the last payload. -/
theorem parse_scan_concat (ps : List (List Nat)) (lastp : List Nat)
    (hb : ∀ p ∈ ps, p.length < 2 ^ 64) (hlast : ps.getLast? = some lastp) :
    parse_scan (concatFrames ps) = some lastp := by
  have hne : ps ≠ [] := by
    intro h
    rw [h] at hlast
    cases hlast
  have hget : ps.getLast hne = lastp := by
    rw [List.getLast?_eq_getLast ps hne] at hlast
    exact Option.some.inj hlast
  have hsplit : ps = ps.dropLast ++ [lastp] := by
    rw [← hget]
    exact (List.dropLast_append_getLast hne).symm
  have hlb : lastp.length < 2 ^ 64 := by
    rw [← hget]
    exact hb _ (List.getLast_mem hne)
  have hframe : concatFrames [lastp] = frame lastp := by
    simp [concatFrames]
  rw [hsplit, concatFrames_append, hframe]
  rw [parse_scan_append ps.dropLast (frame lastp)
    (fun p hp => hb p (List.mem_of_mem_dropLast (hsplit ▸ hp)))
    (by simp [frame, toBE8])]
  exact parse_scan_single hlb
  
/-- A successful append (sink put succeeding) extends the overall event
sequence by exactly the appended event. -/
theorem handle_append_allEvents (ev : Event) (wal_end : Nat) (s : StreamState) :
    ∃ s', handle_append true ev wal_end s = .ok s' ∧
      allEvents s' = allEvents s ++ [ev] := by
  by_cases h10 : s.ctx.row_count + 1 = ROWS_PER_DATA_CHUNK
  · refine ⟨_, handle_append_flush h10, ?_⟩
    by_cases hw : wal_end ≠ 0
    · rw [if_pos hw]
      simp [allEvents, List.flatMap_append, List.append_assoc]
    · rw [if_neg hw]
      simp [allEvents, List.flatMap_append, List.append_assoc]
  · refine ⟨_, handle_append_no_flush h10, ?_⟩
    simp [allEvents, List.append_assoc]

/-! ## Concrete fixtures used by the witnesses -/

def parseTsNone : String → Option Int := fun _ => none

def relMapNone : Nat → Option TableSchema := fun _ => none

/-- A two-column table schema (`public.t(id INT4, name VARCHAR)`). -/
def tsEx : TableSchema :=
  { relation_id := 7,
    table := { schema := "public", name := "t" },
    attributes :=
      [{ name := "id", typ := PgType.int4, type_modifier := -1,
         identity := true, nullable := false },
       { name := "name", typ := PgType.varchar, type_modifier := -1,
         identity := false, nullable := true }] }

def relMapEx : Nat → Option TableSchema := fun n => if n = 7 then some tsEx else none

def inBegin : StepInput :=
  { putOk := true, now := 0,
    msg := ReplMessage.XLogData 3
      (LogicalMessage.Begin { final_lsn := 1, timestamp := 2, xid := 3 }) }

def beginEvEx : Event :=
  event_to_cbor EventType.Begin none
    (begin_body_to_event_data { final_lsn := 1, timestamp := 2, xid := 3 }) 0 3

/-- The loop state after the single `Begin` of `inBegin` from a fresh start. -/
def sC3 : StreamState :=
  { ctx := { row_count := 1, data_chunk_count := 0, data_chunk_buf := [beginEvEx] },
    persisted := [], last_lsn := 0, skipping_events := false, resume_lsn := 0,
    calls := [] }

theorem runSteps_one_begin :
    runSteps parseTsNone relMapNone [inBegin] (init_state none 0 []) = [sC3] := rfl

/-- The loop state after one answered keepalive from a fresh start. -/
def sC2w : StreamState :=
  { ctx := { row_count := 0, data_chunk_count := 0, data_chunk_buf := [] },
    persisted := [], last_lsn := 0, skipping_events := false, resume_lsn := 0,
    calls := [{ written := 0, flushed := 0, applied := 0, ts := 0, reply := 0,
                ghost_max_persisted := 0 }] }

theorem runSteps_one_keepalive :
    runSteps parseTsNone relMapNone
      [{ putOk := true, now := 0, msg := ReplMessage.PrimaryKeepAlive 0 1 }]
      (init_state none 0 []) = [sC2w] := rfl

def rowEx : List PgValue := [PgValue.int4 1, PgValue.varchar "a"]

def rowEvEx : Event :=
  { event_type := EventType.Insert, timestamp := 0, relation_id := some 7,
    last_lsn := 0,
    data := Value.Map [("id", Value.Integer 1), ("name", Value.Text "a")] }

def chunksEx : List (Nat × List Event) :=
  [(1, [write_table_schema_event 0 tsEx, rowEvEx])]

theorem copy_table_run_ex : copy_table_run 0 tsEx [rowEx] = .ok chunksEx := rfl

/-! ## Claim theorems -/

/-- C1 (counterexample): one complete framed record followed by a single
torn trailing byte.  The claim says the resumption scan returns the last
complete record (`some [42]`) and succeeds; instead the source loop walks
past the complete record, treats the torn byte as the next length prefix,
and panics reading `v[start..start + 8]` (`none`). -/
theorem c1_counterexample :
    parse_scan (frame [42] ++ [0]) = none ∧
    parse_scan (frame [42] ++ [0]) ≠ some [42] := by
  constructor
  · decide
  · decide

/-- C1 (amended): the startup resumption scan returns the last complete
record only when the chunk bytes end exactly at a record boundary; when
trailing bytes that do not form a complete record are present
(`t.length < 8 + promised size`, which also covers fewer than 8 trailing
bytes), the scan does not return the last complete record: it panics on a
tail shorter than the 8-byte length prefix, and otherwise hands the torn
tail's own bytes (after its length prefix) to the CBOR decoder instead. -/
theorem c1_amended_scan (ps : List (List Nat)) (t : List Nat)
    (hps : ps ≠ []) (hb : ∀ p ∈ ps, p.length < 2 ^ 64) :
    parse_scan (concatFrames ps) = some (ps.getLast hps) ∧
    (t ≠ [] → t.length < 8 + fromBE8 (t.take 8) →
      parse_scan (concatFrames ps ++ t) =
        if t.length < 8 then none else some (t.drop 8)) := by
  constructor
  · exact parse_scan_concat ps (ps.getLast hps) hb
      (List.getLast?_eq_getLast ps hps)
  · intro ht htorn
    rw [parse_scan_append ps t hb ht]
    rw [parse_scan_eq t ht]
    by_cases h8 : t.length < 8
    · simp [h8]
    · simp only [h8, if_false]
      rw [if_pos (Nat.le_of_lt htorn)]

/-- C1 (witness): a single framed record scans to its payload, and the
same record followed by one torn byte makes the scan fail. -/
theorem c1_amended_scan_witness :
    parse_scan (concatFrames [[5]]) = some [5] ∧
    parse_scan (concatFrames [[5]] ++ [1]) = none := by
  have h := c1_amended_scan [[5]] [1] (by decide) (by decide)
  exact ⟨h.1, by simpa using h.2 (by decide) (by decide)⟩

/-- C2 (counterexample): on a fresh run (no stream chunks persisted) whose
`consistent_point` is 5, the first keepalive with `reply = 1` makes the
loop call `standby_status_update` with 5 — which exceeds the maximum
`last_lsn` (0) over the (empty) set of records persisted in stream chunks,
contradicting the claim that the sent value never exceeds that maximum. -/
theorem c2_counterexample :
    ((runSteps parseTsNone relMapNone
        [{ putOk := true, now := 0, msg := ReplMessage.PrimaryKeepAlive 0 1 }]
        (init_state none 5 [])).map
      (fun s => s.calls.map (fun c => (c.written, c.ghost_max_persisted))))
      = [[(5, 0)]] ∧
    ¬ (5 ≤ (0 : Nat)) := by
  constructor
  · rfl
  · decide

/-- C2 (amended): provided the starting `last_lsn` (the
`consistent_point`) does not exceed the maximum `last_lsn` persisted in
stream chunks — as on any resume run, where the slot reopens at the last
persisted record's LSN, and vacuously on a fresh run only if the
consistent point is 0 — every reachable loop state satisfies: each
`standby_status_update` sent so far carried equal written/flushed/applied
positions (the then-current `last_lsn`) not exceeding the persisted
maximum at call time; `last_lsn` never exceeds the persisted maximum; and
any step that changes `last_lsn` flushed a chunk containing a record with
the new (nonzero) value. -/
theorem c2_amended_ack_bound (parseTs : String → Option Int)
    (relMap : Nat → Option TableSchema) (inputs : List StepInput)
    (resumption : Option ResumptionData) (consistent_point : Nat)
    (prior : List (Nat × List Event))
    (hcp : consistent_point ≤ maxPersistedLsn prior) :
    ∀ s' ∈ runSteps parseTs relMap inputs
        (init_state resumption consistent_point prior),
      (∀ c ∈ s'.calls, c.written = c.flushed ∧ c.flushed = c.applied ∧
        c.written ≤ c.ghost_max_persisted) ∧
      s'.last_lsn ≤ maxPersistedLsn s'.persisted ∧
      (∀ (i : StepInput) (s'' : StreamState),
        step parseTs relMap i.putOk i.now i.msg s' = .ok s'' →
        s''.last_lsn ≠ s'.last_lsn →
        s''.last_lsn ≠ 0 ∧ ∃ ch, s''.persisted = s'.persisted ++ [ch] ∧
          ∃ e ∈ ch.2, e.last_lsn = s''.last_lsn) := by
  intro s' hmem
  have hinit : LsnCallsInv (init_state resumption consistent_point prior) := by
    refine ⟨hcp, ?_⟩
    intro c hc
    cases hc
  have hinv := runSteps_inv LsnCallsInv
    (fun i s s'' hs hstep => step_lsnCallsInv hs hstep) inputs _ hinit s' hmem
  exact ⟨hinv.2, hinv.1, fun i s'' hstep hne => step_lsn_advance hstep hne⟩

/-- C2 (witness): the amended bound at a fresh run with consistent point 0
and one answered keepalive. -/
theorem c2_amended_ack_bound_witness :
    (∀ c ∈ sC2w.calls, c.written = c.flushed ∧ c.flushed = c.applied ∧
      c.written ≤ c.ghost_max_persisted) ∧
    sC2w.last_lsn ≤ maxPersistedLsn sC2w.persisted := by
  have h := c2_amended_ack_bound parseTsNone relMapNone
    [{ putOk := true, now := 0, msg := ReplMessage.PrimaryKeepAlive 0 1 }]
    none 0 [] (by decide) sC2w
    (by rw [runSteps_one_keepalive]; exact List.mem_singleton_self _)
  exact ⟨h.1, h.2.1⟩

/-- C3: the stream copier's chunk counter starts at 0 without resumption
data and at `last_file_name` with it (main.rs:96-98, 144-145); along any
run the newly written stream chunks are numbered `c0+1, c0+2, …`
consecutively (so the first flush writes `realtime_changes/(c0+1)`, i.e.
`n+1` on resume and 1 fresh), their numbers never repeat, and when `c0`
bounds every pre-existing chunk number (as resumption's maximum does), no
new chunk reuses an existing key. -/
theorem c3_chunk_numbering (parseTs : String → Option Int)
    (relMap : Nat → Option TableSchema) (inputs : List StepInput)
    (resumption : Option ResumptionData) (consistent_point : Nat)
    (prior : List (Nat × List Event)) :
    (init_state none consistent_point prior).ctx.data_chunk_count = 0 ∧
    (∀ rd, (init_state (some rd) consistent_point prior).ctx.data_chunk_count
      = rd.last_file_name) ∧
    ∀ s' ∈ runSteps parseTs relMap inputs
        (init_state resumption consistent_point prior),
      ∃ new, s'.persisted = prior ++ new ∧
        new.map Prod.fst = List.range'
          ((init_state resumption consistent_point prior).ctx.data_chunk_count + 1)
          new.length ∧
        s'.ctx.data_chunk_count =
          (init_state resumption consistent_point prior).ctx.data_chunk_count
            + new.length ∧
        (new.map Prod.fst).Nodup ∧
        ((∀ p ∈ prior, p.1 ≤
            (init_state resumption consistent_point prior).ctx.data_chunk_count) →
          ∀ m ∈ new.map Prod.fst, m ∉ prior.map Prod.fst) := by
  refine ⟨rfl, fun rd => rfl, ?_⟩
  intro s' hmem
  have hinit : NewChunksInv
      (init_state resumption consistent_point prior).ctx.data_chunk_count prior
      (init_state resumption consistent_point prior) := by
    exact ⟨rfl, by simp [init_state, ROWS_PER_DATA_CHUNK], [], by simp [init_state],
      by simp, by simp [init_state], by intro c hc; cases hc⟩
  have hinv := runSteps_inv
    (NewChunksInv (init_state resumption consistent_point prior).ctx.data_chunk_count prior)
    (fun i s s'' hs hstep => step_newChunksInv hs hstep) inputs _ hinit s' hmem
  obtain ⟨_, _, new, hnew, hnums, hcount, _⟩ := hinv
  refine ⟨new, hnew, hnums, hcount, ?_, ?_⟩
  · rw [hnums]
    apply List.nodup_range'
    exact Nat.zero_lt_one
  · intro hub m hm hmem'
    rw [hnums] at hm
    obtain ⟨i, _, hi⟩ := List.mem_range'.mp hm
    obtain ⟨p, hp, hpm⟩ := List.mem_map.mp hmem'
    have := hub p hp
    omega

/-- C3 (witness): the numbering facts at a fresh run after one appended
`Begin` event (counter 0, no chunk written yet). -/
theorem c3_chunk_numbering_witness :
    ∃ new, sC3.persisted = ([] : List (Nat × List Event)) ++ new ∧
      new.map Prod.fst = List.range'
        ((init_state none 0 []).ctx.data_chunk_count + 1) new.length ∧
      sC3.ctx.data_chunk_count =
        (init_state none 0 []).ctx.data_chunk_count + new.length ∧
      (new.map Prod.fst).Nodup ∧
      ((∀ p ∈ ([] : List (Nat × List Event)), p.1 ≤
          (init_state none 0 []).ctx.data_chunk_count) →
        ∀ m ∈ new.map Prod.fst, m ∉ ([] : List (Nat × List Event)).map Prod.fst) :=
  (c3_chunk_numbering parseTsNone relMapNone [inBegin] none 0 []).2.2 sC3
    (by rw [runSteps_one_begin]; exact List.mem_singleton_self _)

/-- C4 (counterexample): for a one-row table, the only chunk written under
`table_copies/<schema>.<name>/` is chunk 1 and it contains two events (the
synthetic `Schema` event followed by the row's `Insert`), not exactly one:
`copy_table` pushes the schema event through the same ten-event buffer as
the rows (main.rs:688-697), so no schema-only chunk is written first. -/
theorem c4_counterexample :
    Except.map (fun cs => cs.map (fun c => (c.1, c.2.length)))
      (copy_table_run 0 tsEx [rowEx]) = Except.ok [(1, 2)] ∧
    (2 : Nat) ≠ 1 := by
  constructor
  · rfl
  · decide

/-- C4 (amended): for every successful table snapshot, the first chunk
written is chunk #1, its first event is the single synthetic `Schema`
event, and it contains `min ROWS_PER_DATA_CHUNK (1 + #rows)` events — the
schema event plus the first rows, flushed once ten events accumulate or
the row stream ends; chunks are numbered consecutively from 1. -/
theorem c4_amended_first_chunk (now : Nat) (ts : TableSchema)
    (rows : List (List PgValue)) (chunks : List (Nat × List Event))
    (h : copy_table_run now ts rows = .ok chunks) :
    chunks ≠ [] ∧
    chunks.map Prod.fst = List.range' 1 chunks.length ∧
    ∀ c, chunks.head? = some c → c.1 = 1 ∧
      c.2.head? = some (write_table_schema_event now ts) ∧
      c.2.length = min ROWS_PER_DATA_CHUNK (1 + rows.length) := by
  obtain ⟨h1, h2, _, h4⟩ := copy_table_run_spec h
  exact ⟨h1, h2, h4⟩

/-- C4 (witness): the amended shape at the concrete one-row snapshot. -/
theorem c4_amended_first_chunk_witness :
    chunksEx ≠ [] ∧
    chunksEx.map Prod.fst = List.range' 1 chunksEx.length ∧
    ∀ c, chunksEx.head? = some c → c.1 = 1 ∧
      c.2.head? = some (write_table_schema_event 0 tsEx) ∧
      c.2.length = min ROWS_PER_DATA_CHUNK (1 + [rowEx].length) :=
  c4_amended_first_chunk 0 tsEx [rowEx] chunksEx copy_table_run_ex

/-- C5 (code_bug evaluation): when the `get_object` for the `done` marker
fails with a raw response whose status is not a client error (e.g. a 500),
`table_copy_done` falls through its `false => ()` arm to `Ok(true)` — the
table is treated as already snapshotted and skipped — instead of the
fatal propagation the spec requires ("no errors are swallowed"). -/
theorem c5_server_error_swallowed :
    table_copy_done (S3GetOutcome.failure (some { is_client_error := false })) =
      Except.ok true := rfl

/-- C6: for a `Relation` message, the skip check runs before the schema
map is consulted — while skipping, the message is dropped with the same
resulting state for every schema map (so an unknown `rel_id` raises no
error); when not skipping, a `rel_id` absent from the map is the fatal
`RelationIdNotFound`, and a present one appends exactly one `Relation`
event to the stream. -/
theorem c6_relation_skip_order (parseTs : String → Option Int)
    (relMap : Nat → Option TableSchema) (putOk : Bool) (now wal_end : Nat)
    (r : RelationBody) (s : StreamState) :
    (should_skip s wal_end EventType.Relation = true →
      step parseTs relMap putOk now
        (ReplMessage.XLogData wal_end (LogicalMessage.Relation r)) s = .ok s) ∧
    (should_skip s wal_end EventType.Relation = false → relMap r.rel_id = none →
      step parseTs relMap putOk now
        (ReplMessage.XLogData wal_end (LogicalMessage.Relation r)) s =
        .error (RunError.relationIdNotFound r.rel_id)) ∧
    (∀ schema, should_skip s wal_end EventType.Relation = false →
      relMap r.rel_id = some schema →
      ∃ s', step parseTs relMap true now
          (ReplMessage.XLogData wal_end (LogicalMessage.Relation r)) s = .ok s' ∧
        allEvents s' = allEvents s ++
          [event_to_cbor EventType.Relation (some schema)
            (relation_body_to_event_data r) now wal_end] ∧
        (event_to_cbor EventType.Relation (some schema)
          (relation_body_to_event_data r) now wal_end).event_type
          = EventType.Relation) := by
  refine ⟨?_, ?_, ?_⟩
  · intro hskip
    simp [step, hskip]
  · intro hskip hrel
    simp [step, hskip, hrel]
  · intro schema hskip hrel
    obtain ⟨s', happ, hall⟩ := handle_append_allEvents
      (event_to_cbor EventType.Relation (some schema)
        (relation_body_to_event_data r) now wal_end) wal_end s
    refine ⟨s', ?_, hall, rfl⟩
    simp [step, hskip, hrel]
    exact happ

/-- A resumption hint whose last event kind was not `Commit`, so the
resume filter starts active. -/
def rdSkipEx : ResumptionData :=
  { resume_lsn := 10, last_event_type := EventType.Insert,
    last_file_name := 1, skipping_events := true }

/-- C6 (witness): the three arms at concrete states — skipping with an
unknown relation id (dropped, no error), not skipping with an unknown id
(fatal), and not skipping with a known id (event appended). -/
theorem c6_relation_skip_order_witness :
    (step parseTsNone relMapNone true 0
      (ReplMessage.XLogData 5 (LogicalMessage.Relation
        { rel_id := 9, nspace := "public", name := "t", columns := [] }))
      (init_state (some rdSkipEx) 0 []) =
      .ok (init_state (some rdSkipEx) 0 [])) ∧
    (step parseTsNone relMapNone true 0
      (ReplMessage.XLogData 5 (LogicalMessage.Relation
        { rel_id := 9, nspace := "public", name := "t", columns := [] }))
      (init_state none 0 []) = .error (RunError.relationIdNotFound 9)) ∧
    (∃ s', step parseTsNone relMapEx true 0
        (ReplMessage.XLogData 5 (LogicalMessage.Relation
          { rel_id := 7, nspace := "public", name := "t", columns := [] }))
        (init_state none 0 []) = .ok s' ∧
      allEvents s' = allEvents (init_state none 0 []) ++
        [event_to_cbor EventType.Relation (some tsEx)
          (relation_body_to_event_data
            { rel_id := 7, nspace := "public", name := "t", columns := [] }) 0 5] ∧
      (event_to_cbor EventType.Relation (some tsEx)
        (relation_body_to_event_data
          { rel_id := 7, nspace := "public", name := "t", columns := [] }) 0 5).event_type
        = EventType.Relation) := by
  refine ⟨?_, ?_, ?_⟩
  · exact (c6_relation_skip_order parseTsNone relMapNone true 0 5 _ _).1 rfl
  · exact (c6_relation_skip_order parseTsNone relMapNone true 0 5 _ _).2.1 rfl rfl
  · exact (c6_relation_skip_order parseTsNone relMapEx true 0 5 _ _).2.2 tsEx rfl rfl

/-- C7: whenever the bucket holds at least one stream chunk (`keys` is the
listed chunk numbers and `n` the fold's result), and the largest-numbered
chunk's bytes are a concatenation of complete framed records whose last
record decodes to the event `E`, the hint built before opening the slot is
exactly `{ resume_lsn = E.last_lsn, last_event_type = E.event_type,
last_file_name = n, skipping_events = (E.event_type ≠ Commit) }`, and `n`
is the largest existing stream chunk number. -/
theorem c7_resumption_hint (keys : List Nat) (fetch : Nat → List Nat)
    (decode : List Nat → Option Event) (n : Nat) (payloads : List (List Nat))
    (lastp : List Nat) (E : Event)
    (hkeys : largest_realtime_file_number keys = some n)
    (hfetch : fetch n = concatFrames payloads)
    (hb : ∀ p ∈ payloads, p.length < 2 ^ 64)
    (hlast : payloads.getLast? = some lastp)
    (hdec : decode lastp = some E) :
    get_relatime_resumption_data keys fetch decode =
      .ok (some { resume_lsn := E.last_lsn, last_event_type := E.event_type,
                  last_file_name := n,
                  skipping_events := decide (E.event_type ≠ EventType.Commit) }) ∧
    n ∈ keys ∧ ∀ k ∈ keys, k ≤ n := by
  have hne : keys ≠ [] := by
    intro h
    rw [h] at hkeys
    cases hkeys
  obtain ⟨m, hm, hmem, hub⟩ := largest_realtime_file_number_spec keys hne
  have hmn : m = n := Option.some.inj (hm ▸ hkeys)
  subst hmn
  refine ⟨?_, hmem, hub⟩
  have hscan : parse_scan (fetch m) = some lastp := by
    rw [hfetch]
    exact parse_scan_concat payloads lastp hb hlast
  simp only [get_relatime_resumption_data, hkeys, hscan, hdec]

/-- A commit event at LSN 42 used by the resumption witness. -/
def evCommitEx : Event :=
  { event_type := EventType.Commit, timestamp := 0, relation_id := none,
    last_lsn := 42, data := Value.Null }

def fetchEx : Nat → List Nat := fun _ => frame [9]

def decodeEx : List Nat → Option Event :=
  fun bs => if bs = [9] then some evCommitEx else none

/-- C7 (witness): a bucket with chunks 3 and 1 whose largest chunk holds
one framed record decoding to a commit at LSN 42. -/
theorem c7_resumption_hint_witness :
    get_relatime_resumption_data [3, 1] fetchEx decodeEx =
      .ok (some { resume_lsn := 42, last_event_type := EventType.Commit,
                  last_file_name := 3,
                  skipping_events :=
                    decide (evCommitEx.event_type ≠ EventType.Commit) }) ∧
    3 ∈ [3, 1] ∧ ∀ k ∈ [3, 1], k ≤ 3 :=
  c7_resumption_hint [3, 1] fetchEx decodeEx 3 [[9]] [9] evCommitEx
    rfl rfl (by decide) rfl rfl

/-- C8: every chunk object the pipeline persists holds exactly
`ROWS_PER_DATA_CHUNK = 10` events, except the terminal chunk of a table
snapshot, which holds between 1 and 10; in particular every stream chunk
written under `realtime_changes/` during any run holds exactly 10. -/
theorem c8_chunk_sizes :
    (∀ (parseTs : String → Option Int) (relMap : Nat → Option TableSchema)
      (inputs : List StepInput) (resumption : Option ResumptionData)
      (consistent_point : Nat) (prior : List (Nat × List Event)),
      ∀ s' ∈ runSteps parseTs relMap inputs
          (init_state resumption consistent_point prior),
        ∀ c ∈ s'.persisted.drop prior.length,
          c.2.length = ROWS_PER_DATA_CHUNK) ∧
    (∀ (now : Nat) (ts : TableSchema) (rows : List (List PgValue))
      (chunks : List (Nat × List Event)),
      copy_table_run now ts rows = .ok chunks →
      ∀ c ∈ chunks, c.2.length = ROWS_PER_DATA_CHUNK ∨
        (chunks.getLast? = some c ∧ 1 ≤ c.2.length ∧
          c.2.length ≤ ROWS_PER_DATA_CHUNK)) := by
  constructor
  · intro parseTs relMap inputs resumption consistent_point prior s' hmem c hc
    have hinit : NewChunksInv
        (init_state resumption consistent_point prior).ctx.data_chunk_count prior
        (init_state resumption consistent_point prior) := by
      exact ⟨rfl, by simp [init_state, ROWS_PER_DATA_CHUNK], [], by simp [init_state],
        by simp, by simp [init_state], by intro d hd; cases hd⟩
    have hinv := runSteps_inv
      (NewChunksInv (init_state resumption consistent_point prior).ctx.data_chunk_count prior)
      (fun i s s'' hs hstep => step_newChunksInv hs hstep) inputs _ hinit s' hmem
    obtain ⟨_, _, new, hnew, _, _, hlens⟩ := hinv
    rw [hnew, List.drop_left] at hc
    exact hlens c hc
  · intro now ts rows chunks h c hc
    exact (copy_table_run_spec h).2.2.1 c hc

/-- C8 (witness): the size facts at a one-step stream trace (no chunk
flushed yet, the bound holds vacuously) and at the concrete one-row
snapshot, whose single terminal chunk holds 2 events. -/
theorem c8_chunk_sizes_witness :
    (∀ c ∈ sC3.persisted.drop ([] : List (Nat × List Event)).length,
      c.2.length = ROWS_PER_DATA_CHUNK) ∧
    (∀ c ∈ chunksEx, c.2.length = ROWS_PER_DATA_CHUNK ∨
      (chunksEx.getLast? = some c ∧ 1 ≤ c.2.length ∧
        c.2.length ≤ ROWS_PER_DATA_CHUNK)) := by
  constructor
  · exact c8_chunk_sizes.1 parseTsNone relMapNone [inBegin] none 0 [] sC3
      (by rw [runSteps_one_begin]; exact List.mem_singleton_self _)
  · exact c8_chunk_sizes.2 0 tsEx [rowEx] chunksEx copy_table_run_ex

/-- C9: a `PrimaryKeepAlive` with `reply = 1` makes the loop send
`standby_status_update(last_lsn, last_lsn, last_lsn, now, 0)` (with `now`
the microseconds since the Postgres epoch) and touches nothing else —
buffer, row count, chunk counter, persisted chunks and the skip state are
all as before; with `reply ≠ 1` the state is completely unchanged. -/
theorem c9_keepalive_frame (parseTs : String → Option Int)
    (relMap : Nat → Option TableSchema) (putOk : Bool) (now wal_end reply : Nat)
    (s : StreamState) :
    (reply = 1 →
      step parseTs relMap putOk now (ReplMessage.PrimaryKeepAlive wal_end reply) s =
        .ok { s with calls := s.calls ++
          [{ written := s.last_lsn, flushed := s.last_lsn, applied := s.last_lsn,
             ts := now, reply := 0,
             ghost_max_persisted := maxPersistedLsn s.persisted }] }) ∧
    (reply ≠ 1 →
      step parseTs relMap putOk now (ReplMessage.PrimaryKeepAlive wal_end reply) s =
        .ok s) := by
  constructor
  · intro h
    simp [step, h]
  · intro h
    simp [step, h]

/-- C9 (witness): both keepalive arms at a concrete state. -/
theorem c9_keepalive_frame_witness :
    (step parseTsNone relMapNone true 0 (ReplMessage.PrimaryKeepAlive 0 1) sC3 =
      .ok { sC3 with calls := sC3.calls ++
        [{ written := sC3.last_lsn, flushed := sC3.last_lsn,
           applied := sC3.last_lsn, ts := 0, reply := 0,
           ghost_max_persisted := maxPersistedLsn sC3.persisted }] }) ∧
    (step parseTsNone relMapNone true 0 (ReplMessage.PrimaryKeepAlive 0 0) sC3 =
      .ok sC3) := by
  constructor
  · exact (c9_keepalive_frame parseTsNone relMapNone true 0 0 1 sC3).1 rfl
  · exact (c9_keepalive_frame parseTsNone relMapNone true 0 0 0 sC3).2 (by decide)

/-- C10: decoding a replication tuple against a table schema indexes the
tuple's cells at every attribute position with no bounds check — for any
tuple with fewer cells than the schema has attributes, `get_data` panics
(`none`) instead of returning an error, whatever the cell contents and
the timestamp parser. -/
theorem c10_get_data_bounds (parseTs : String → Option Int)
    (table_schema : TableSchema) (tupleData : List TupleData)
    (hlt : tupleData.length < table_schema.attributes.length) :
    get_data parseTs table_schema tupleData = none := by
  have hne : table_schema.attributes ≠ [] := by
    intro h
    rw [h] at hlt
    simp at hlt
  rw [get_data, get_data_go_short parseTs _ _ 0 hne (by omega)]
  rfl

/-- C10 (witness): a one-cell tuple against the two-attribute schema. -/
theorem c10_get_data_bounds_witness :
    get_data parseTsNone tsEx [TupleData.Null] = none :=
  c10_get_data_bounds parseTsNone tsEx [TupleData.Null] (by decide)
